import Mathlib

/-!
Verification of the SCP flux decoder core (`src/scp.c` of mfmdisk).

Shallow embedding conventions:
* C `unsigned` (32-bit) arithmetic is modelled on `Nat` with an explicit
  `% 2^32` wherever the C code can wrap (the accumulator `val` of
  `scp_next_flux`).
* C `int` fields of the PLL are modelled on `Int`; C signed overflow is
  undefined behaviour, so the unbounded `Int` model coincides with the C
  program on every defined execution.  C division of `int` truncates
  toward zero, which is `Int.tdiv`.
* The file is modelled as a list of bytes; `lseek` on a regular file with
  a valid descriptor and a non-negative offset always succeeds, so the
  `lseek`-failure paths of `scp_select_track` are dead in the model.
* `read(2)` on a regular file returns `min count (size - pos)` bytes;
  `read_exact` is embedded as its loop over that primitive.
* The 16-bit big-endian byte-order conversion `be16toh` (applied in
  `scp_next_flux` in the C source) is folded into track loading: `dat`
  holds host-order sample values, each `< 2^16` by construction.
* Loops are embedded with an explicit fuel argument (`none` = fuel ran
  out); a `List Nat` of read positions is returned by the flux iterator
  as ghost instrumentation (no C state depends on it).
-/

/-- Two to the 32nd: modulus of C `unsigned` arithmetic. -/
def U32 : Nat := 4294967296

/-- One revolution descriptor of a track record, after host byte-order
conversion, with its data offset already rebased to an absolute file
offset (`scp_select_track` lines 143-148).  Field layout modelled from
the spec: 32-bit LE duration, sample count, and byte offset. -/
structure RevDesc where
  duration_25ns : Nat
  nr_samples : Nat
  offset : Nat
deriving DecidableEq, Repr

/-- The track record (`TRK` header).  Struct layout modelled from the
spec: 3 signature bytes, 1 track-number byte, then the revolution
descriptors. -/
structure TrackRec where
  sig : List Nat
  track_nr : Nat
  rev : List RevDesc
deriving DecidableEq, Repr

/-- The fields of the container header that the track loader and the
decode orchestrator read.  Modelled from the spec layout (`scp.h` is not
part of the sources): revolution count, first/last track, and the
168-entry track offset table (already converted to host order by
`scp_open`). -/
structure ScpHeader where
  nr_revolutions : Nat
  start_track : Nat
  end_track : Nat
  track_offset : List Nat
deriving DecidableEq, Repr

/-- The per-session state `scp_file_t`.  `file` stands for the bytes
reachable through the file descriptor; `dat = none` models the NULL
buffer pointer. -/
structure scp_file_t where
  file : List Nat
  header : ScpHeader
  track : TrackRec
  dat : Option (List Nat)
  datsz : Nat
  index_ptr : List Nat
  iter_ptr : Nat
  iter_limit : Nat
deriving DecidableEq, Repr

/-- The sample buffer as the C code indexes it (`sf->dat[...]`);
dereferencing a NULL `dat` is undefined behaviour in C, the model reads
from the empty list. -/
def scpDat (sf : scp_file_t) : List Nat := sf.dat.getD []

/-- `scp_reset` (lines 171-175): reset both cursor offsets to zero. -/
def scp_reset (sf : scp_file_t) : scp_file_t :=
  { sf with iter_ptr := 0, iter_limit := 0 }

/-- Start offset of revolution `rev` inside the flux buffer:
`rev ? sf->index_ptr[rev-1] : 0` (line 184). -/
def revStart (sf : scp_file_t) (rev : Nat) : Nat :=
  if rev = 0 then 0 else sf.index_ptr.getD (rev - 1) 0

/-- Exclusive end offset of revolution `rev` inside the flux buffer:
`sf->index_ptr[rev]` (line 183). -/
def revEnd (sf : scp_file_t) (rev : Nat) : Nat :=
  sf.index_ptr.getD rev 0

/-- The `for (;;)` body of `scp_next_flux` (lines 181-196), with fuel.
Returns the updated state, the accumulated `unsigned val`, and (ghost)
the list of buffer positions read. -/
def nextFluxAux (rev : Nat) : Nat → scp_file_t → Nat →
    Option (scp_file_t × Nat × List Nat)
  | 0, _, _ => none
  | fuel + 1, sf, val =>
    -- if (sf->iter_ptr >= sf->iter_limit) reinitialize cursor, clear val
    let sf1 := if sf.iter_limit ≤ sf.iter_ptr then
        { sf with iter_limit := revEnd sf rev, iter_ptr := revStart sf rev }
      else sf
    let val1 := if sf.iter_limit ≤ sf.iter_ptr then 0 else val
    -- unsigned t = be16toh(sf->dat[sf->iter_ptr++])
    let t := (scpDat sf1).getD sf1.iter_ptr 0
    let pos := sf1.iter_ptr
    let sf2 := { sf1 with iter_ptr := sf1.iter_ptr + 1 }
    if t ≠ 0 then
      some (sf2, (val1 + t) % U32, [pos])
    else
      match nextFluxAux rev fuel sf2 ((val1 + 65536) % U32) with
      | none => none
      | some (sf3, v, tr) => some (sf3, v, pos :: tr)

/-- `scp_next_flux` (lines 177-197): next flux interval of revolution
`rev`, in raw 25 ns ticks, merging zero-valued overflow markers. -/
def scp_next_flux (sf : scp_file_t) (rev : Nat) (fuel : Nat) :
    Option (scp_file_t × Nat × List Nat) :=
  nextFluxAux rev fuel sf 0

/-- PLL state (`pll_t`, lines 285-292).  The `sf`/`rev` pointers of the
C struct are passed explicitly; `clocked_zeros` starts at 0 and is only
incremented or reset, hence `Nat`. -/
structure PLL where
  rev : Nat
  clock : Int
  flux : Int
  time : Int
  clocked_zeros : Nat
deriving DecidableEq, Repr

/-- `pll_init` (lines 297-303): zero everything, clock at the 2000 ns
centre. -/
def pll_init (rev : Nat) : PLL :=
  { rev := rev, clock := 2000, flux := 0, time := 0, clocked_zeros := 0 }

/-- The accumulation loop of `pll_next_bit` (lines 312-314):
`while (flux < clock/2) flux += 25 * scp_next_flux(sf, rev)`.
`nff` is the fuel given to each `scp_next_flux` call, the outer `Nat`
bounds the number of loop iterations. -/
def pllAccum (nff : Nat) : Nat → PLL → scp_file_t → Option (PLL × scp_file_t)
  | 0, _, _ => none
  | fuel + 1, p, sf =>
    if p.flux < Int.tdiv p.clock 2 then
      match scp_next_flux sf p.rev nff with
      | none => none
      | some (sf1, v, _) =>
        pllAccum nff fuel { p with flux := p.flux + 25 * (v : Int) } sf1
    else
      some (p, sf)

/-- `pll_next_bit` (lines 310-349), translated clause by clause from the
C source: accumulate, advance, classify, and on a one-cell adjust the
clock period (5%), clamp to `(2000*(100±10))/100`, and snap the phase
by 60%. -/
def pll_next_bit (nff af : Nat) (p : PLL) (sf : scp_file_t) :
    Option (PLL × scp_file_t × Nat) :=
  match pllAccum nff af p sf with
  | none => none
  | some (p0, sf1) =>
    let p1 : PLL := { p0 with time := p0.time + p0.clock,
                              flux := p0.flux - p0.clock }
    if p1.flux ≥ Int.tdiv p1.clock 2 then
      some ({ p1 with clocked_zeros := p1.clocked_zeros + 1 }, sf1, 0)
    else
      let c1 : Int := if p1.clocked_zeros ≤ 3 then
          p1.clock + Int.tdiv (p1.flux * 5) 100
        else
          p1.clock + Int.tdiv ((2000 - p1.clock) * 5) 100
      let c2 : Int := if c1 < Int.tdiv (2000 * (100 - 10)) 100 then
          Int.tdiv (2000 * (100 - 10)) 100 else c1
      let c3 : Int := if c2 > Int.tdiv (2000 * (100 + 10)) 100 then
          Int.tdiv (2000 * (100 + 10)) 100 else c2
      let new_flux : Int := Int.tdiv (p1.flux * (100 - 60)) 100
      some ({ p1 with clock := c3,
                      time := p1.time + (p1.flux - new_flux),
                      flux := new_flux,
                      clocked_zeros := 0 }, sf1, 1)

/-- The accumulation loop exactly as §4.2/§4.3 of the spec word it:
while `flux < clock/2`, add `25 * next_flux(revolution)` to `flux`. -/
def pllAccumSpec (nff : Nat) : Nat → PLL → scp_file_t →
    Option (PLL × scp_file_t)
  | 0, _, _ => none
  | fuel + 1, p, sf =>
    if p.flux < Int.tdiv p.clock 2 then
      match scp_next_flux sf p.rev nff with
      | none => none
      | some (sf1, v, _) =>
        pllAccumSpec nff fuel { p with flux := p.flux + 25 * (v : Int) } sf1
    else
      some (p, sf)

/-- `next_bit` as §4.3 of the spec prescribes it, step by step: advance
`time += clock; flux -= clock`; a zero cell when `flux >= clock/2`;
otherwise `clock += flux*5/100` when `clocked_zeros <= 3`, else
`clock += (2000-clock)*5/100`; clamp the clock to the inclusive band
`[2000*90/100, 2000*110/100]`; `new_flux = flux*(100-60)/100`;
`time += flux - new_flux; flux = new_flux`; reset `clocked_zeros`. -/
def pll_next_bit_spec (nff af : Nat) (p : PLL) (sf : scp_file_t) :
    Option (PLL × scp_file_t × Nat) :=
  match pllAccumSpec nff af p sf with
  | none => none
  | some (p0, sf1) =>
    let p1 : PLL := { p0 with time := p0.time + p0.clock,
                              flux := p0.flux - p0.clock }
    if Int.tdiv p1.clock 2 ≤ p1.flux then
      some ({ p1 with clocked_zeros := p1.clocked_zeros + 1 }, sf1, 0)
    else
      let adjusted : Int := if p1.clocked_zeros ≤ 3 then
          p1.clock + Int.tdiv (p1.flux * 5) 100
        else
          p1.clock + Int.tdiv ((2000 - p1.clock) * 5) 100
      let clamped : Int :=
        max (Int.tdiv (2000 * 90) 100) (min (Int.tdiv (2000 * 110) 100) adjusted)
      let new_flux : Int := Int.tdiv (p1.flux * (100 - 60)) 100
      some ({ p1 with clock := clamped,
                      time := p1.time + (p1.flux - new_flux),
                      flux := new_flux,
                      clocked_zeros := 0 }, sf1, 1)

/-- Modelled from the spec: the external MFM sink interface (`mfm.c` is
not under the sources).  It receives half-bits one at a time and exposes
`last`, the last-written bit value (0/1); the model additionally counts
the half-bits delivered. -/
structure mfm_writer_t where
  count : Nat
  last : Nat
deriving DecidableEq, Repr

/-- Modelled from the spec: `mfm_write_reset` yields a fresh sink for
the next track (no half-bit written yet). -/
def mfm_write_reset : mfm_writer_t := { count := 0, last := 0 }

/-- Modelled from the spec: `mfm_write_halfbit` hands one half-bit to
the sink; `last` becomes that bit. -/
def mfm_write_halfbit (w : mfm_writer_t) (bit : Nat) : mfm_writer_t :=
  { count := w.count + 1, last := bit }

/-- C logical negation `!writer.last` on the 0/1-valued `last`. -/
def lnot (b : Nat) : Nat := if b = 0 then 1 else 0

/-- The natural decode loop of `scp_write_mfm` (lines 387-391):
`do { halfbit = pll_next_bit(); write; n++; } while (iter_ptr < iter_limit)`.
Fuel-indexed; returns the PLL, session, sink and counter after the
cursor-exhaustion condition stops the loop. -/
def decodeLoop (nff af : Nat) : Nat → PLL → scp_file_t → mfm_writer_t →
    Nat → Option (PLL × scp_file_t × mfm_writer_t × Nat)
  | 0, _, _, _, _ => none
  | fuel + 1, p, sf, w, n =>
    match pll_next_bit nff af p sf with
    | none => none
    | some (p1, sf1, halfbit) =>
      let w1 := mfm_write_halfbit w halfbit
      let n1 := n + 1
      if sf1.iter_ptr < sf1.iter_limit then
        decodeLoop nff af fuel p1 sf1 w1 n1
      else
        some (p1, sf1, w1, n1)

/-- The padding loop of `scp_write_mfm` (lines 394-398):
`while (n++ < 12800*8) { write(!last); if (n++ < 12800*8) write(!last); }`.
The C post-increments make `n` advance by two per iteration; both
recursive calls are at `n + 2`. -/
def padLoop (w : mfm_writer_t) (n : Nat) : mfm_writer_t × Nat :=
  if h : n < 12800 * 8 then
    let w1 := mfm_write_halfbit w (lnot w.last)
    if n + 1 < 12800 * 8 then
      padLoop (mfm_write_halfbit w1 (lnot w1.last)) (n + 2)
    else
      padLoop w1 (n + 2)
  else
    (w, n + 1)
termination_by 12800 * 8 - n
decreasing_by
  all_goals omega

/-- The non-filler branch of `scp_write_mfm` for one selected track
(lines 380-398): reset the cursor, build a fresh PLL, discard one
half-bit, run the natural decode loop, then pad. -/
def scp_track_mfm (nff af fuel : Nat) (sf : scp_file_t) (rev : Nat) :
    Option (mfm_writer_t × Nat) :=
  let sf0 := scp_reset sf
  let p0 := pll_init rev
  match pll_next_bit nff af p0 sf0 with
  | none => none
  | some (p1, sf1, _) =>
    match decodeLoop nff af fuel p1 sf1 mfm_write_reset 0 with
    | none => none
    | some (_, _, w, n) => some (padLoop w n)

/-- One iteration of the `read_exact` loop (lines 52-65) on the byte
model: `read(2)` on a regular file delivers `min count (size - pos)`
bytes (EAGAIN/EINTR retries are invisible, `done < 0` aborts the
process); `done == 0` means end-of-file, where the remainder is
`memset` to zero.  Fuel-indexed. -/
def readExactGo (file : List Nat) : Nat → Nat → Nat → Option (List Nat)
  | _, _, 0 => none
  | pos, count, fuel + 1 =>
    if count = 0 then
      some []
    else
      let avail := file.length - pos
      let done := min count avail
      if done = 0 then
        some (List.replicate count 0)
      else
        match readExactGo file (pos + done) (count - done) fuel with
        | none => none
        | some rest => some (((file.drop pos).take done) ++ rest)

/-- `read_exact(fd, buf, count)` reading from byte position `pos`
(lines 47-66): the loop needs at most two `read` calls on a regular
file plus the terminal check, so fuel 3 always suffices; `read_exact`
never fails (a short read zero-fills). -/
def read_exact (file : List Nat) (pos count : Nat) : List Nat :=
  (readExactGo file pos count 3).getD []

/-- 32-bit little-endian value at byte offset `i` of a buffer
(`le32toh` applied to the stored field). -/
def le32 (b : List Nat) (i : Nat) : Nat :=
  b.getD i 0 + 256 * b.getD (i + 1) 0 + 65536 * b.getD (i + 2) 0 +
    16777216 * b.getD (i + 3) 0

/-- 16-bit big-endian sample value from two consecutive bytes
(`be16toh` of the stored `uint16_t`, folded into loading). -/
def be16at (b : List Nat) (i : Nat) : Nat :=
  256 * b.getD i 0 + b.getD (i + 1) 0

/-- Ghost trace of the system calls `scp_select_track` performs. -/
inductive FileEv where
  | seekTo (off : Nat) : FileEv
  | readBytes (n : Nat) : FileEv
deriving DecidableEq, Repr

/-- `scp_select_track` (lines 116-166).  Returns the C result code
(0 success, -1 track error), the new session state, and (ghost) the
I/O trace.  The byte-order conversion and offset rebasing of lines
143-148 are folded into parsing the track-record bytes; reading the
sample arrays keeps the raw big-endian buffer of the C code implicit
by converting each 16-bit sample on load. -/
def scp_select_track (sf : scp_file_t) (tn : Nat) :
    Int × scp_file_t × List FileEv :=
  -- Track already loaded?
  if sf.dat.isSome ∧ sf.track.track_nr = tn then
    (0, sf, [])
  else
    -- Free data from previous track.
    let sfA := { sf with dat := none, datsz := 0 }
    -- Read track header (lseek on a valid fd cannot fail in the model).
    let tdh_offset := sfA.header.track_offset.getD tn 0
    let hdrsz := 4 + 12 * sfA.header.nr_revolutions
    let buf := read_exact sfA.file tdh_offset hdrsz
    let revs := (List.range sfA.header.nr_revolutions).map (fun r =>
      { duration_25ns := le32 buf (4 + 12 * r),
        nr_samples := le32 buf (4 + 12 * r + 4),
        offset := tdh_offset + le32 buf (4 + 12 * r + 8) : RevDesc })
    let sfB := { sfA with
      track := { sig := [buf.getD 0 0, buf.getD 1 0, buf.getD 2 0],
                 track_nr := buf.getD 3 0, rev := revs } }
    let ev1 := [FileEv.seekTo tdh_offset, FileEv.readBytes hdrsz]
    if sfB.track.sig ≠ [84, 82, 75] then       -- "TRK"
      (-1, sfB, ev1)
    else if sfB.track.track_nr ≠ tn then
      (-1, sfB, ev1)
    else
      -- calloc succeeds or the process aborts; read all revolutions.
      let loaded := revs.foldl (fun acc rd =>
        let bytes := read_exact sfB.file rd.offset (rd.nr_samples * 2)
        let samples := (List.range rd.nr_samples).map (fun i =>
          be16at bytes (2 * i))
        (acc.1 ++ samples, acc.2.1 + rd.nr_samples,
         acc.2.2.1 ++ [acc.2.1 + rd.nr_samples],
         acc.2.2.2 ++ [FileEv.seekTo rd.offset,
                       FileEv.readBytes (rd.nr_samples * 2)]))
        (([] : List Nat), 0, ([] : List Nat), ev1)
      (0, { sfB with dat := some loaded.1, datsz := loaded.2.1,
                     index_ptr := loaded.2.2.1 }, loaded.2.2.2)

/-- Which branch of the per-track body of `scp_write_mfm`
(lines 372-399) runs. -/
inductive TrackPath where
  | filler : TrackPath
  | decode : TrackPath
deriving DecidableEq, Repr

/-- The branch selection of `scp_write_mfm` for physical track `tn`
(lines 372-379): filler when the track is out of the header's range or
selection fails, the PLL decode path otherwise.  Short-circuit
evaluation: `scp_select_track` only runs when `tn` is in range. -/
def scp_track_branch (sf : scp_file_t) (tn : Nat) : TrackPath × scp_file_t :=
  if tn < sf.header.start_track then
    (TrackPath.filler, sf)
  else if sf.header.end_track ≤ tn then
    (TrackPath.filler, sf)
  else
    let r := scp_select_track sf tn
    if r.1 < 0 then (TrackPath.filler, r.2.1) else (TrackPath.decode, r.2.1)

/-! ### Concrete sessions used by witnesses and counterexamples -/

/-- A loaded single-revolution track whose flux buffer is one sample of
value 40 (1000 ns). -/
def sfOne : scp_file_t :=
  { file := [], header := ⟨1, 0, 1, [0]⟩, track := ⟨[84, 82, 75], 0, []⟩,
    dat := some [40], datsz := 1, index_ptr := [1],
    iter_ptr := 0, iter_limit := 0 }

/-- A loaded track whose revolution-0 slice is one overflow marker
followed by the sample 1: the raw interval is `0x10000 + 1` ticks. -/
def sfOvfl : scp_file_t :=
  { file := [], header := ⟨1, 0, 1, [0]⟩, track := ⟨[84, 82, 75], 0, []⟩,
    dat := some [0, 1], datsz := 2, index_ptr := [2],
    iter_ptr := 0, iter_limit := 0 }

/-- A two-revolution track: revolution 0 is `[0, 40]` (one overflow run),
revolution 1 is `[7]`. -/
def sfTwoRev : scp_file_t :=
  { file := [], header := ⟨2, 0, 1, [0]⟩, track := ⟨[84, 82, 75], 0, []⟩,
    dat := some [0, 40, 7], datsz := 3, index_ptr := [2, 3],
    iter_ptr := 0, iter_limit := 0 }

/-- A loaded track whose single revolution is 130 overflow markers, a
closing sample 1, and a final sample 65535: the first flux interval is
`130 * 0x10000 + 1` ticks, long enough to drive the natural decode loop
past `12800*8` half-bits while one sample is still unconsumed. -/
def sfLong : scp_file_t :=
  { file := [], header := ⟨1, 0, 1, [0]⟩, track := ⟨[84, 82, 75], 0, []⟩,
    dat := some (List.replicate 130 0 ++ [1, 65535]), datsz := 132,
    index_ptr := [132], iter_ptr := 0, iter_limit := 0 }

/-- Bytes of a well-formed track record for track 0 with one revolution
of one sample (value 40, stored big-endian at offset 16). -/
def fileTrk : List Nat :=
  [84, 82, 75, 0, 0, 0, 0, 0, 1, 0, 0, 0, 16, 0, 0, 0, 0, 40]

/-- A fresh session on `fileTrk`, no track loaded yet. -/
def sfFresh : scp_file_t :=
  { file := fileTrk, header := ⟨1, 0, 1, [0]⟩, track := ⟨[0, 0, 0], 99, []⟩,
    dat := none, datsz := 0, index_ptr := [],
    iter_ptr := 0, iter_limit := 0 }

/-- Bytes of a well-formed track record for track 0 with one revolution
of ZERO samples (`nr_samples = 0`). -/
def fileTrkEmpty : List Nat :=
  [84, 82, 75, 0, 0, 0, 0, 0, 0, 0, 0, 0, 16, 0, 0, 0]

/-- A fresh session on `fileTrkEmpty`. -/
def sfFreshEmpty : scp_file_t :=
  { file := fileTrkEmpty, header := ⟨1, 0, 1, [0]⟩,
    track := ⟨[0, 0, 0], 99, []⟩,
    dat := none, datsz := 0, index_ptr := [],
    iter_ptr := 0, iter_limit := 0 }

/-- A session holding a stale buffer, over an empty file: any selection
attempt reads zero bytes and fails the `TRK` signature check. -/
def sfStale : scp_file_t :=
  { file := [], header := ⟨1, 0, 1, [0]⟩, track := ⟨[84, 82, 75], 7, []⟩,
    dat := some [1, 2, 3], datsz := 3, index_ptr := [3],
    iter_ptr := 0, iter_limit := 0 }

/-- The session produced by a successful `scp_select_track sfFresh 0`. -/
def sfLoaded : scp_file_t :=
  { file := fileTrk, header := ⟨1, 0, 1, [0]⟩,
    track := ⟨[84, 82, 75], 0, [⟨0, 1, 16⟩]⟩,
    dat := some [40], datsz := 1, index_ptr := [1],
    iter_ptr := 0, iter_limit := 0 }

/-- The session produced by the failing `scp_select_track sfStale 0`
(the empty file reads as zeros, so the `TRK` signature check fails). -/
def sfStaleFailed : scp_file_t :=
  { file := [], header := ⟨1, 0, 1, [0]⟩,
    track := ⟨[0, 0, 0], 0, [⟨0, 0, 0⟩]⟩,
    dat := none, datsz := 0, index_ptr := [3],
    iter_ptr := 0, iter_limit := 0 }

/-- The cursor is either exhausted (which forces a restart on the next
read) or consistent with revolution `rev`: at or past the slice start
with the limit at the slice end. -/
def cursorOK (sf : scp_file_t) (rev : Nat) : Prop :=
  sf.iter_limit ≤ sf.iter_ptr ∨
    (revStart sf rev ≤ sf.iter_ptr ∧ sf.iter_limit = revEnd sf rev)

instance (sf : scp_file_t) (rev : Nat) : Decidable (cursorOK sf rev) := by
  unfold cursorOK
  infer_instance

/-! ### Helper lemmas -/

theorem pllAccumSpec_eq_pllAccum (nff : Nat) :
    ∀ af p sf, pllAccumSpec nff af p sf = pllAccum nff af p sf := by
  intro af
  induction af with
  | zero => intro p sf; rfl
  | succ n ih =>
    intro p sf
    simp only [pllAccumSpec, pllAccum]
    split
    · cases h : scp_next_flux sf p.rev nff with
      | none => rfl
      | some r =>
        obtain ⟨sf1, v, tr⟩ := r
        exact ih _ _
    · rfl

theorem pllAccum_clock_eq (nff : Nat) :
    ∀ af p sf p0 sf1, pllAccum nff af p sf = some (p0, sf1) →
      p0.clock = p.clock ∧ p0.clocked_zeros = p.clocked_zeros ∧
        p0.rev = p.rev := by
  intro af
  induction af with
  | zero => intro p sf p0 sf1 h; exact absurd h (by simp [pllAccum])
  | succ n ih =>
    intro p sf p0 sf1 h
    simp only [pllAccum] at h
    split at h
    · cases hnf : scp_next_flux sf p.rev nff with
      | none => rw [hnf] at h; exact absurd h (by simp)
      | some r =>
        obtain ⟨sf2, v, tr⟩ := r
        rw [hnf] at h
        dsimp only at h
        obtain ⟨h1, h2, h3⟩ := ih _ _ _ _ h
        exact ⟨h1, h2, h3⟩
    · simp only [Option.some.injEq, Prod.mk.injEq] at h
      obtain ⟨rfl, rfl⟩ := h
      exact ⟨rfl, rfl, rfl⟩

/-! ### C4: the PLL call matches §4.3 of the spec step by step -/

/-- C4 (confirmed): one call of `pll_next_bit` behaves exactly as §4.3
prescribes — accumulate `25 * next_flux` while `flux < clock/2`, then
`time += clock; flux -= clock`; when `flux >= clock/2` increment
`clocked_zeros` and return 0 with no other change; otherwise adjust the
clock by `flux*5/100` (locked) or `(2000-clock)*5/100` (unlocked), clamp
it to `[1800, 2200]`, snap `new_flux = flux*40/100`,
`time += flux - new_flux`, `flux = new_flux`, clear `clocked_zeros`, and
return 1 — all in signed arithmetic with division truncating toward
zero (`Int.tdiv`). -/
theorem c4_next_bit_matches_spec (nff af : Nat) (p : PLL) (sf : scp_file_t) :
    pll_next_bit nff af p sf = pll_next_bit_spec nff af p sf := by
  unfold pll_next_bit pll_next_bit_spec
  rw [pllAccumSpec_eq_pllAccum]
  cases pllAccum nff af p sf with
  | none => rfl
  | some r =>
    obtain ⟨p0, sf1⟩ := r
    have h90 : Int.tdiv (2000 * (100 - 10)) 100 = 1800 := by decide
    have h110 : Int.tdiv (2000 * (100 + 10)) 100 = 2200 := by decide
    have h90b : Int.tdiv (2000 * 90) 100 = 1800 := by decide
    have h110b : Int.tdiv (2000 * 110) 100 = 2200 := by decide
    simp only [ge_iff_le, gt_iff_lt, h90, h110, h90b, h110b]
    split
    · rfl
    · simp only [Option.some.injEq, Prod.mk.injEq, PLL.mk.injEq, true_and,
        and_true]
      split_ifs <;> omega

/-! ### C5: the PLL clock stays in the ±10% band -/

/-- C5 (confirmed): the PLL clock starts at 2000 ns (inside the band)
and any single `pll_next_bit` call, on any session state, maps a clock
inside `[1800, 2200]` to a clock inside `[1800, 2200]`; hence the band
holds after any number of calls on any flux input. -/
theorem c5_clock_band (rev : Nat) :
    (pll_init rev).clock = 2000 ∧ (1800 : Int) ≤ 2000 ∧ (2000 : Int) ≤ 2200 ∧
    (∀ nff af p sf p1 sf1 b,
      1800 ≤ p.clock → p.clock ≤ 2200 →
      pll_next_bit nff af p sf = some (p1, sf1, b) →
      1800 ≤ p1.clock ∧ p1.clock ≤ 2200) := by
  refine ⟨rfl, by norm_num, by norm_num, ?_⟩
  intro nff af p sf p1 sf1 b hlo hhi h
  unfold pll_next_bit at h
  cases hacc : pllAccum nff af p sf with
  | none => rw [hacc] at h; exact absurd h (by simp)
  | some r =>
    obtain ⟨p0, sf0⟩ := r
    rw [hacc] at h
    obtain ⟨hck, -, -⟩ := pllAccum_clock_eq nff af p sf p0 sf0 hacc
    have h90 : Int.tdiv (2000 * (100 - 10)) 100 = 1800 := by decide
    have h110 : Int.tdiv (2000 * (100 + 10)) 100 = 2200 := by decide
    simp only [ge_iff_le, gt_iff_lt, h90, h110] at h
    split_ifs at h <;>
      (simp only [Option.some.injEq, Prod.mk.injEq] at h
       obtain ⟨rfl, -, -⟩ := h
       refine ⟨by dsimp; omega, by dsimp; omega⟩)

/-- Witness for C5 at a concrete call: decoding the single-sample track
`sfOne` from reset moves the clock from 2000 to 1950, inside the band. -/
theorem c5_witness : (1800 : Int) ≤ 1950 ∧ (1950 : Int) ≤ 2200 := by
  have h := (c5_clock_band 0).2.2.2 10 10 (pll_init 0) (scp_reset sfOne)
    { rev := 0, clock := 1950, flux := -400, time := 1400, clocked_zeros := 0 }
    { sfOne with iter_ptr := 1, iter_limit := 1 } 1
    (by decide) (by decide) (by decide)
  exact h

/-! ### C8: short reads zero-fill instead of erroring -/

theorem readExactGo_two (file : List Nat) (pos count fuel : Nat) :
    readExactGo file pos count (fuel + 2) =
      some ((file.drop pos).take count ++
        List.replicate (count - (file.length - pos)) 0) := by
  by_cases h0 : count = 0
  · subst h0; simp [readExactGo]
  · by_cases ha : file.length - pos = 0
    · have hd : file.drop pos = [] := List.drop_eq_nil_of_le (by omega)
      simp [readExactGo, h0, ha, hd]
    · simp only [readExactGo, h0, if_false]
      by_cases hc : count ≤ file.length - pos
      · have hmin : min count (file.length - pos) = count := by omega
        have hcc : count - count = 0 := by omega
        simp [hmin, h0, hcc, readExactGo, Nat.sub_eq_zero_of_le hc]
      · have hmin : min count (file.length - pos) = file.length - pos := by
          omega
        have hne : ¬(count - (file.length - pos) = 0) := by omega
        have havail : file.length - (pos + (file.length - pos)) = 0 := by omega
        have hlen : (file.drop pos).length = file.length - pos :=
          List.length_drop pos file
        have htk1 : (file.drop pos).take count = file.drop pos :=
          List.take_of_length_le (by omega)
        have htk2 : (file.drop pos).take (file.length - pos) = file.drop pos :=
          List.take_of_length_le (by omega)
        simp [hmin, hne, havail, readExactGo, htk1, htk2]
        intro h'
        exact absurd h' ha

/-- C8 (confirmed): a `read_exact` of `count` bytes at position `pos`
delivers the available file bytes followed by zero filler — it always
completes (no error), its output has exactly `count` bytes, and every
byte past the end-of-file point `file.length - pos` is zero, so a track
loaded from a truncated capture is zero-padded rather than failing. -/
theorem c8_read_exact_zero_pad (file : List Nat) (pos count : Nat) :
    read_exact file pos count =
      (file.drop pos).take count ++
        List.replicate (count - (file.length - pos)) 0 ∧
    (read_exact file pos count).length = count ∧
    (∀ i, file.length - pos ≤ i → i < count →
      (read_exact file pos count).getD i 0 = 0) := by
  have hmain : read_exact file pos count =
      (file.drop pos).take count ++
        List.replicate (count - (file.length - pos)) 0 := by
    have h3 : (3 : Nat) = 1 + 2 := rfl
    rw [read_exact, h3, readExactGo_two]
    rfl
  have hlen : ((file.drop pos).take count ++
      List.replicate (count - (file.length - pos)) 0).length = count := by
    simp [List.length_take, List.length_drop]
    omega
  refine ⟨hmain, by rw [hmain]; exact hlen, ?_⟩
  intro i hi hic
  rw [hmain]
  have hlt : ((file.drop pos).take count).length ≤ i := by
    simp [List.length_take, List.length_drop]
    omega
  rw [List.getD_eq_getElem?_getD, List.getElem?_append_right hlt,
    List.getElem?_replicate]
  split <;> rfl

/-- Witness for C8: reading 3 bytes of the 1-byte file `[7]` yields
`[7, 0, 0]`, and in particular byte 2 is zero filler. -/
theorem c8_witness :
    read_exact [7] 0 3 = [7, 0, 0] ∧ (read_exact [7] 0 3).getD 2 0 = 0 := by
  have h := c8_read_exact_zero_pad [7] 0 3
  refine ⟨?_, h.2.2 2 (by norm_num) (by norm_num)⟩
  rw [h.1]
  rfl

/-! ### C7: re-selecting the loaded track is a no-op -/

/-- C7 (confirmed): when `scp_select_track` succeeds, an immediately
repeated selection of the same index returns success with the state
completely unchanged and performs no seek and no read (empty I/O
trace). -/
theorem c7_select_idempotent (sf : scp_file_t) (tn : Nat)
    (sf1 : scp_file_t) (tr : List FileEv)
    (h : scp_select_track sf tn = (0, sf1, tr)) :
    scp_select_track sf1 tn = (0, sf1, []) := by
  simp only [scp_select_track] at h
  split_ifs at h with hfast hsig htnr
  · simp only [Prod.mk.injEq] at h
    obtain ⟨rfl, -⟩ := h.2
    simp [scp_select_track, hfast]
  · simp only [Prod.mk.injEq] at h
    exact absurd h.1 (by decide)
  · simp only [Prod.mk.injEq] at h
    exact absurd h.1 (by decide)
  · simp only [Prod.mk.injEq] at h
    obtain ⟨rfl, -⟩ := h.2
    have htn := not_not.mp htnr
    simp only [List.getD_eq_getElem?_getD] at htn
    simp [scp_select_track, htn]

/-- Witness for C7: on the concrete session `sfFresh` over the track
record `fileTrk`, selection succeeds yielding `sfLoaded`, and the
repeated selection is the identity with no I/O. -/
theorem c7_witness : scp_select_track sfLoaded 0 = (0, sfLoaded, []) :=
  c7_select_idempotent sfFresh 0 sfLoaded
    [FileEv.seekTo 0, FileEv.readBytes 16, FileEv.seekTo 16,
     FileEv.readBytes 2] (by decide)

/-! ### C10: a failed selection leaves no stale buffer -/

/-- C10 (confirmed): when `scp_select_track` fails (signature is not
`TRK` or the embedded track number differs from the requested index —
the only `-1` paths), the resulting session has a freed buffer: the
data pointer is NULL and the recorded data size is zero, so the
idempotent fast path cannot return stale data afterwards. -/
theorem c10_failure_clears_buffer (sf : scp_file_t) (tn : Nat)
    (sf1 : scp_file_t) (tr : List FileEv)
    (h : scp_select_track sf tn = (-1, sf1, tr)) :
    sf1.dat = none ∧ sf1.datsz = 0 := by
  simp only [scp_select_track] at h
  split_ifs at h with hfast hsig htnr
  · simp only [Prod.mk.injEq] at h
    exact absurd h.1 (by decide)
  · simp only [Prod.mk.injEq] at h
    obtain ⟨rfl, -⟩ := h.2
    exact ⟨rfl, rfl⟩
  · simp only [Prod.mk.injEq] at h
    obtain ⟨rfl, -⟩ := h.2
    exact ⟨rfl, rfl⟩
  · simp only [Prod.mk.injEq] at h
    exact absurd h.1 (by decide)

/-- Witness for C10: selecting track 0 on the stale session `sfStale`
(whose file is empty, so the signature check fails) leaves a session
with no buffer and zero data size. -/
theorem c10_witness : sfStaleFailed.dat = none ∧ sfStaleFailed.datsz = 0 :=
  c10_failure_clears_buffer sfStale 0 sfStaleFailed
    [FileEv.seekTo 0, FileEv.readBytes 16] (by decide)

/-! ### C1: value of an overflow run -/

theorem cons_shift_range (p0 m : Nat) :
    p0 :: (List.range m).map (fun i => p0 + 1 + i) =
      (List.range (m + 1)).map (fun i => p0 + i) := by
  rw [List.range_succ_eq_map, List.map_cons, List.map_map]
  refine congrArg₂ List.cons (by omega) ?_
  apply List.map_congr_left
  intro a ha
  simp only [Function.comp_apply]
  omega

theorem nextFluxAux_zero_run (rev : Nat) :
    ∀ k (sf : scp_file_t) (val v : Nat),
      sf.iter_ptr + k < sf.iter_limit →
      (∀ i, i < k → (scpDat sf).getD (sf.iter_ptr + i) 0 = 0) →
      (scpDat sf).getD (sf.iter_ptr + k) 0 = v →
      v ≠ 0 →
      val + k * 65536 + v < U32 →
      nextFluxAux rev (k + 1) sf val =
        some ({ sf with iter_ptr := sf.iter_ptr + k + 1 },
          val + k * 65536 + v,
          (List.range (k + 1)).map (fun i => sf.iter_ptr + i)) := by
  intro k
  induction k with
  | zero =>
    intro sf val v hin hz hv hv0 hnw
    have hnr : ¬ sf.iter_limit ≤ sf.iter_ptr := by omega
    have hvv : (scpDat sf).getD sf.iter_ptr 0 = v := by simpa using hv
    have hm : (val + v) % U32 = val + v := Nat.mod_eq_of_lt (by omega)
    simp only [nextFluxAux, if_neg hnr, hvv, hm]
    rw [if_pos hv0]
    simp
    rw [show List.range 1 = [0] from rfl]
    simp
  | succ n ih =>
    intro sf val v hin hz hv hv0 hnw
    have hnr : ¬ sf.iter_limit ≤ sf.iter_ptr := by omega
    have ht0 : (scpDat sf).getD sf.iter_ptr 0 = 0 := by
      have := hz 0 (by omega)
      simpa using this
    have hm : (val + 65536) % U32 = val + 65536 :=
      Nat.mod_eq_of_lt (by unfold U32 at hnw ⊢; omega)
    have hih := ih { sf with iter_ptr := sf.iter_ptr + 1 } (val + 65536) v
      (by simpa using (by omega : sf.iter_ptr + 1 + n < sf.iter_limit))
      (by intro i hi
          have := hz (i + 1) (by omega)
          simpa [Nat.add_assoc, Nat.add_comm 1 i] using this)
      (by have := hv
          simpa [Nat.add_assoc, Nat.add_comm 1 n] using this)
      hv0
      (by omega)
    conv_lhs => rw [nextFluxAux]
    simp only [if_neg hnr, ht0, ne_eq, not_true_eq_false, if_false, hm]
    rw [hih]
    have htr := cons_shift_range sf.iter_ptr (n + 1)
    simp only [Option.some.injEq, Prod.mk.injEq, scp_file_t.mk.injEq]
    refine ⟨by simp <;> omega, by omega, ?_⟩
    simpa using htr

/-- C1 (corrected): for a run of `k` zero samples followed by a non-zero
sample `v` inside the cursor's slice (not interrupted by a restart),
`scp_next_flux` returns the raw tick count `k * 0x10000 + v`, and the
flux delivered to the PLL — which scales the returned value by 25
(`pll->flux += 25 * scp_next_flux(...)`) — is
`25 * 0x10000 * k + 25 * v` nanoseconds, not `k * 0x10000 + 25 * v` as
the claim states. -/
theorem c1_flux_run_scaled (sf : scp_file_t) (rev k v : Nat)
    (hin : sf.iter_ptr + k < sf.iter_limit)
    (hz : ∀ i, i < k → (scpDat sf).getD (sf.iter_ptr + i) 0 = 0)
    (hv : (scpDat sf).getD (sf.iter_ptr + k) 0 = v)
    (hv0 : v ≠ 0)
    (hnw : k * 65536 + v < U32) :
    scp_next_flux sf rev (k + 1) =
      some ({ sf with iter_ptr := sf.iter_ptr + k + 1 }, k * 65536 + v,
        (List.range (k + 1)).map (fun i => sf.iter_ptr + i)) ∧
    (25 : Int) * ((k * 65536 + v : Nat) : Int) =
      25 * 65536 * (k : Int) + 25 * (v : Int) := by
  constructor
  · have h := nextFluxAux_zero_run rev k sf 0 v hin hz hv hv0 (by omega)
    simpa [scp_next_flux] using h
  · push_cast
    ring

/-- Counterexample for C1 as stated: on the concrete buffer `[0, 1]`
(`k = 1` zero marker, closing sample `v = 1`), `scp_next_flux` returns
65537 raw ticks and the PLL accumulates `25 * 65537 = 1638425` ns of
flux, which differs from the claimed `k * 0x10000 + 25 * v = 65561`. -/
theorem c1_counterexample :
    scp_next_flux (scp_reset sfOvfl) 0 5 =
      some ({ sfOvfl with iter_ptr := 2, iter_limit := 2 }, 65537, [0, 1]) ∧
    pllAccum 5 2 (pll_init 0) (scp_reset sfOvfl) =
      some ({ pll_init 0 with flux := 1638425 },
        { sfOvfl with iter_ptr := 2, iter_limit := 2 }) ∧
    ¬ ((1638425 : Int) = 1 * 65536 + 25 * 1) :=
  ⟨by decide, by decide, by decide⟩

/-- Witness for C1 at `k = 1`, `v = 1` on the mid-iteration state over
the buffer `[0, 1]`. -/
theorem c1_witness :
    scp_next_flux { sfOvfl with iter_limit := 2 } 0 2 =
      some ({ sfOvfl with iter_ptr := 2, iter_limit := 2 }, 65537, [0, 1]) ∧
    (25 : Int) * 65537 = 25 * 65536 * 1 + 25 * 1 := by
  have h := c1_flux_run_scaled { sfOvfl with iter_limit := 2 } 0 1 1
    (by decide)
    (by intro i hi
        have hi0 : i = 0 := by omega
        subst hi0
        decide)
    (by decide) (by decide) (by decide)
  exact ⟨h.1, h.2⟩

/-! ### C6: restart-on-exhaustion stays inside the revolution slice -/

theorem scpDat_set (sf : scp_file_t) (a b : Nat) :
    scpDat { sf with iter_ptr := a, iter_limit := b } = scpDat sf := rfl

theorem scpDat_set_ptr (sf : scp_file_t) (a : Nat) :
    scpDat { sf with iter_ptr := a } = scpDat sf := rfl

theorem revStart_set (sf : scp_file_t) (a b : Nat) (rev : Nat) :
    revStart { sf with iter_ptr := a, iter_limit := b } rev =
      revStart sf rev := rfl

theorem revStart_set_ptr (sf : scp_file_t) (a : Nat) (rev : Nat) :
    revStart { sf with iter_ptr := a } rev = revStart sf rev := rfl

theorem revEnd_set (sf : scp_file_t) (a b : Nat) (rev : Nat) :
    revEnd { sf with iter_ptr := a, iter_limit := b } rev =
      revEnd sf rev := rfl

theorem revEnd_set_ptr (sf : scp_file_t) (a : Nat) (rev : Nat) :
    revEnd { sf with iter_ptr := a } rev = revEnd sf rev := rfl

theorem nextFluxAux_in_slice (rev : Nat) :
    ∀ fuel (sf : scp_file_t) (val : Nat) sf1 v tr,
      revStart sf rev < revEnd sf rev →
      cursorOK sf rev →
      nextFluxAux rev fuel sf val = some (sf1, v, tr) →
      (∀ p ∈ tr, revStart sf rev ≤ p ∧ p < revEnd sf rev) ∧
      sf1.dat = sf.dat ∧ sf1.index_ptr = sf.index_ptr ∧
      revStart sf rev < sf1.iter_ptr ∧ sf1.iter_ptr ≤ revEnd sf rev ∧
      sf1.iter_limit = revEnd sf rev := by
  intro fuel
  induction fuel with
  | zero =>
    intro sf val sf1 v tr hne hok h
    exact absurd h (by simp [nextFluxAux])
  | succ n ih =>
    intro sf val sf1 v tr hne hok h
    rw [nextFluxAux] at h
    by_cases hres : sf.iter_limit ≤ sf.iter_ptr
    · simp only [if_pos hres, scpDat_set, revStart_set, revEnd_set] at h
      by_cases ht : (scpDat sf).getD (revStart sf rev) 0 = 0
      · rw [if_neg (by simpa using ht)] at h
        cases hrec : nextFluxAux rev n
            ({ sf with iter_limit := revEnd sf rev,
                       iter_ptr := revStart sf rev + 1 })
            ((0 + 65536) % U32) with
        | none => rw [hrec] at h; exact absurd h (by simp)
        | some r =>
          obtain ⟨sf2, v2, tr2⟩ := r
          rw [hrec] at h
          simp only [Option.some.injEq, Prod.mk.injEq] at h
          obtain ⟨rfl, rfl, rfl⟩ := h
          have hih := ih
            ({ sf with
                iter_limit := revEnd sf rev,
                iter_ptr := revStart sf rev + 1 })
            ((0 + 65536) % U32)
            sf2 v2 tr2 hne (Or.inr ⟨Nat.le_succ _, rfl⟩) hrec
          obtain ⟨htr, hdat, hidx, hp1, hp2, hlim⟩ := hih
          refine ⟨?_, hdat, hidx, ?_, hp2, hlim⟩
          · intro p hp
            rcases List.mem_cons.mp hp with hp | hp
            · subst hp
              exact ⟨le_refl _, hne⟩
            · exact htr p hp
          · have hp1x : revStart sf rev + 1 ≤ sf2.iter_ptr := hp1
            omega
      · rw [if_pos (by simpa using ht)] at h
        simp only [Option.some.injEq, Prod.mk.injEq] at h
        obtain ⟨rfl, rfl, rfl⟩ := h
        refine ⟨?_, rfl, rfl, Nat.lt_succ_of_le (le_refl _), hne, rfl⟩
        intro p hp
        simp only [List.mem_singleton] at hp
        subst hp
        exact ⟨le_refl _, hne⟩
    · simp only [if_neg hres] at h
      obtain hst | hst := hok
      · exact absurd hst hres
      obtain ⟨hst1, hst2⟩ := hst
      have hptr : sf.iter_ptr < revEnd sf rev := by omega
      by_cases ht : (scpDat sf).getD sf.iter_ptr 0 = 0
      · rw [if_neg (by simpa using ht)] at h
        cases hrec : nextFluxAux rev n
            ({ sf with iter_ptr := sf.iter_ptr + 1 })
            ((val + 65536) % U32) with
        | none => rw [hrec] at h; exact absurd h (by simp)
        | some r =>
          obtain ⟨sf2, v2, tr2⟩ := r
          rw [hrec] at h
          simp only [Option.some.injEq, Prod.mk.injEq] at h
          obtain ⟨rfl, rfl, rfl⟩ := h
          have hih := ih ({ sf with iter_ptr := sf.iter_ptr + 1 })
            ((val + 65536) % U32) sf2 v2 tr2 hne
            (Or.inr ⟨Nat.le_succ_of_le hst1, hst2⟩) hrec
          obtain ⟨htr, hdat, hidx, hp1, hp2, hlim⟩ := hih
          refine ⟨?_, hdat, hidx, ?_, hp2, hlim⟩
          · intro p hp
            rcases List.mem_cons.mp hp with hp | hp
            · subst hp
              exact ⟨hst1, hptr⟩
            · exact htr p hp
          · have hp1x : revStart sf rev < sf2.iter_ptr := hp1
            exact hp1x
      · rw [if_pos (by simpa using ht)] at h
        simp only [Option.some.injEq, Prod.mk.injEq] at h
        obtain ⟨rfl, rfl, rfl⟩ := h
        refine ⟨?_, rfl, rfl, Nat.lt_succ_of_le hst1, hptr, hst2⟩
        intro p hp
        simp only [List.mem_singleton] at hp
        subst hp
        exact ⟨hst1, hptr⟩

theorem nextFluxAux_restart (rev : Nat) (sf : scp_file_t) (val fuel : Nat)
    (hne : revStart sf rev < revEnd sf rev)
    (hres : sf.iter_limit ≤ sf.iter_ptr) :
    nextFluxAux rev fuel sf val =
      nextFluxAux rev fuel
        ({ sf with iter_ptr := revStart sf rev,
                   iter_limit := revEnd sf rev }) 0 := by
  cases fuel with
  | zero => rfl
  | succ n =>
    have hneg : ¬ revEnd sf rev ≤ revStart sf rev := by omega
    simp only [nextFluxAux, if_pos hres, if_neg hneg, scpDat_set,
      revStart_set, revEnd_set]

/-- C6 (confirmed): whenever the cursor has reached or passed the
stored end index of revolution `rev` (including the very first call
after a reset), `scp_next_flux` behaves exactly as if the cursor had
been reinitialized to the start of that revolution's slice with the
accumulator cleared; and, provided the slice is non-empty, every buffer
position the call reads lies inside `[revStart, revEnd)` — it never
reads another revolution's data. -/
theorem c6_restart_in_slice (sf : scp_file_t) (rev : Nat)
    (hne : revStart sf rev < revEnd sf rev)
    (hok : cursorOK sf rev) :
    (sf.iter_limit ≤ sf.iter_ptr →
      ∀ fuel val, nextFluxAux rev fuel sf val =
        nextFluxAux rev fuel
          ({ sf with iter_ptr := revStart sf rev,
                     iter_limit := revEnd sf rev }) 0) ∧
    (∀ fuel sf1 v tr, scp_next_flux sf rev fuel = some (sf1, v, tr) →
      ∀ p ∈ tr, revStart sf rev ≤ p ∧ p < revEnd sf rev) := by
  constructor
  · intro hres fuel val
    exact nextFluxAux_restart rev sf val fuel hne hres
  · intro fuel sf1 v tr h p hp
    exact (nextFluxAux_in_slice rev fuel sf 0 sf1 v tr hne hok h).1 p hp

/-- Witness for C6 on the two-revolution track `sfTwoRev`, revolution 1
(slice `[2, 3)`): the exhausted cursor restarts to the slice start and
the single read position 2 lies inside the slice. -/
theorem c6_witness :
    nextFluxAux 1 5 sfTwoRev 0 =
      nextFluxAux 1 5 ({ sfTwoRev with iter_ptr := 2, iter_limit := 3 }) 0 ∧
    (2 ≤ 2 ∧ 2 < 3) := by
  have h := c6_restart_in_slice sfTwoRev 1 (by decide) (by decide)
  constructor
  · exact h.1 (by decide) 5 0
  · exact h.2 5 ({ sfTwoRev with iter_ptr := 3, iter_limit := 3 }) 7 [2]
      (by decide) 2 (by decide)

/-! ### C9: termination of the flux iterator and of the PLL loops -/

theorem revStart_congr (sf1 sf : scp_file_t) (rev : Nat)
    (h : sf1.index_ptr = sf.index_ptr) :
    revStart sf1 rev = revStart sf rev := by
  unfold revStart
  rw [h]

theorem revEnd_congr (sf1 sf : scp_file_t) (rev : Nat)
    (h : sf1.index_ptr = sf.index_ptr) :
    revEnd sf1 rev = revEnd sf rev := by
  unfold revEnd
  rw [h]

theorem scpDat_congr (sf1 sf : scp_file_t) (h : sf1.dat = sf.dat) :
    scpDat sf1 = scpDat sf := by
  unfold scpDat
  rw [h]

theorem nextFluxAux_mono (rev : Nat) :
    ∀ fuel fuel2 (sf : scp_file_t) (val : Nat) r,
      nextFluxAux rev fuel sf val = some r → fuel ≤ fuel2 →
      nextFluxAux rev fuel2 sf val = some r := by
  intro fuel
  induction fuel with
  | zero =>
    intro _ _ _ _ h _
    exact absurd h (by simp [nextFluxAux])
  | succ n ih =>
    intro fuel2 sf val r h hle
    cases fuel2 with
    | zero => omega
    | succ m =>
      rw [nextFluxAux] at h ⊢
      by_cases hres : sf.iter_limit ≤ sf.iter_ptr
      · simp only [if_pos hres, scpDat_set, revStart_set, revEnd_set] at h ⊢
        by_cases ht : (scpDat sf).getD (revStart sf rev) 0 = 0
        · rw [if_neg (by simpa using ht)] at h ⊢
          cases hrec : nextFluxAux rev n
              ({ sf with iter_limit := revEnd sf rev,
                         iter_ptr := revStart sf rev + 1 })
              ((0 + 65536) % U32) with
          | none => rw [hrec] at h; exact absurd h (by simp)
          | some r2 =>
            rw [hrec] at h
            rw [ih m _ _ r2 hrec (by omega)]
            exact h
        · rw [if_pos (by simpa using ht)] at h ⊢
          exact h
      · simp only [if_neg hres] at h ⊢
        by_cases ht : (scpDat sf).getD sf.iter_ptr 0 = 0
        · rw [if_neg (by simpa using ht)] at h ⊢
          cases hrec : nextFluxAux rev n
              ({ sf with iter_ptr := sf.iter_ptr + 1 })
              ((val + 65536) % U32) with
          | none => rw [hrec] at h; exact absurd h (by simp)
          | some r2 =>
            rw [hrec] at h
            rw [ih m _ _ r2 hrec (by omega)]
            exact h
        · rw [if_pos (by simpa using ht)] at h ⊢
          exact h

theorem nextFluxAux_reach (rev j : Nat) :
    ∀ k (sf : scp_file_t) (val : Nat),
      val % 65536 = 0 →
      revStart sf rev ≤ sf.iter_ptr →
      sf.iter_limit = revEnd sf rev →
      sf.iter_ptr ≤ j →
      j < revEnd sf rev →
      (scpDat sf).getD j 0 ≠ 0 →
      (∀ i, (scpDat sf).getD i 0 < 65536) →
      j + 1 - sf.iter_ptr ≤ k →
      ∃ sf1 v tr, nextFluxAux rev k sf val = some (sf1, v, tr) ∧ 0 < v := by
  intro k
  induction k with
  | zero =>
    intro sf val _ _ _ hj hjend _ _ hk
    omega
  | succ n ih =>
    intro sf val hval hst hlim hj hjend hjnz hsmall hk
    have hres : ¬ sf.iter_limit ≤ sf.iter_ptr := by omega
    rw [nextFluxAux]
    simp only [if_neg hres]
    by_cases ht : (scpDat sf).getD sf.iter_ptr 0 = 0
    · rw [if_neg (by simpa using ht)]
      have hne_ptr : sf.iter_ptr ≠ j := by
        intro e
        rw [e] at ht
        exact hjnz ht
      have hih := ih ({ sf with iter_ptr := sf.iter_ptr + 1 })
        ((val + 65536) % U32)
        (by unfold U32; omega)
        (by
          have : revStart sf rev ≤ sf.iter_ptr + 1 := by omega
          exact this)
        hlim
        (by
          have : sf.iter_ptr + 1 ≤ j := by omega
          exact this)
        hjend hjnz hsmall
        (by
          have : j + 1 - (sf.iter_ptr + 1) ≤ n := by omega
          exact this)
      obtain ⟨sf1, v, tr, hrec, hv⟩ := hih
      rw [hrec]
      exact ⟨sf1, v, sf.iter_ptr :: tr, rfl, hv⟩
    · rw [if_pos (by simpa using ht)]
      refine ⟨_, _, _, rfl, ?_⟩
      have hsm := hsmall sf.iter_ptr
      show 0 < (val + (scpDat sf).getD sf.iter_ptr 0) % U32
      unfold U32
      omega

theorem nextFluxAux_reach_exhausted (rev j : Nat) (sf : scp_file_t)
    (val : Nat)
    (hres : sf.iter_limit ≤ sf.iter_ptr)
    (hj1 : revStart sf rev ≤ j) (hj2 : j < revEnd sf rev)
    (hjnz : (scpDat sf).getD j 0 ≠ 0)
    (hsmall : ∀ i, (scpDat sf).getD i 0 < 65536) :
    ∃ fuel sf1 v tr, fuel ≤ j + 1 ∧
      nextFluxAux rev fuel sf val = some (sf1, v, tr) ∧ 0 < v := by
  have hne : revStart sf rev < revEnd sf rev := by omega
  have hr := nextFluxAux_restart rev sf val (j + 1 - revStart sf rev) hne hres
  have hA := nextFluxAux_reach rev j (j + 1 - revStart sf rev)
    ({ sf with iter_ptr := revStart sf rev, iter_limit := revEnd sf rev }) 0
    (by norm_num)
    (le_refl _) rfl hj1 hj2 hjnz hsmall (le_refl _)
  obtain ⟨sf1, v, tr, hA1, hA2⟩ := hA
  exact ⟨j + 1 - revStart sf rev, sf1, v, tr, by omega,
    by rw [hr]; exact hA1, hA2⟩

theorem nextFluxAux_reach_any (rev j : Nat) :
    ∀ d (sf : scp_file_t) (val : Nat),
      val % 65536 = 0 →
      cursorOK sf rev →
      revStart sf rev ≤ j → j < revEnd sf rev →
      (scpDat sf).getD j 0 ≠ 0 →
      (∀ i, (scpDat sf).getD i 0 < 65536) →
      revEnd sf rev - sf.iter_ptr ≤ d →
      ∃ fuel sf1 v tr, fuel ≤ revEnd sf rev - sf.iter_ptr + j + 1 ∧
        nextFluxAux rev fuel sf val = some (sf1, v, tr) ∧ 0 < v := by
  intro d
  induction d with
  | zero =>
    intro sf val hval hok hj1 hj2 hjnz hsmall hd
    have hres : sf.iter_limit ≤ sf.iter_ptr := by
      rcases hok with h | ⟨h1, h2⟩
      · exact h
      · omega
    obtain ⟨fuel, sf1, v, tr, hb, h1, h2⟩ :=
      nextFluxAux_reach_exhausted rev j sf val hres hj1 hj2 hjnz hsmall
    exact ⟨fuel, sf1, v, tr, by omega, h1, h2⟩
  | succ n ih =>
    intro sf val hval hok hj1 hj2 hjnz hsmall hd
    by_cases hres : sf.iter_limit ≤ sf.iter_ptr
    · obtain ⟨fuel, sf1, v, tr, hb, h1, h2⟩ :=
        nextFluxAux_reach_exhausted rev j sf val hres hj1 hj2 hjnz hsmall
      exact ⟨fuel, sf1, v, tr, by omega, h1, h2⟩
    · obtain hst | ⟨hst1, hst2⟩ := hok
      · exact absurd hst hres
      have hptr : sf.iter_ptr < revEnd sf rev := by omega
      by_cases hpj : sf.iter_ptr ≤ j
      · obtain ⟨sf1, v, tr, h1, h2⟩ := nextFluxAux_reach rev j
          (j + 1 - sf.iter_ptr) sf val hval hst1 hst2 hpj hj2 hjnz hsmall
          (le_refl _)
        exact ⟨j + 1 - sf.iter_ptr, sf1, v, tr, by omega, h1, h2⟩
      · by_cases ht : (scpDat sf).getD sf.iter_ptr 0 = 0
        · have hih := ih ({ sf with iter_ptr := sf.iter_ptr + 1 })
            ((val + 65536) % U32)
            (by unfold U32; omega)
            (Or.inr ⟨by
               have : revStart sf rev ≤ sf.iter_ptr + 1 := by omega
               exact this, hst2⟩)
            hj1 hj2 hjnz hsmall
            (by
              have : revEnd sf rev - (sf.iter_ptr + 1) ≤ n := by omega
              exact this)
          rw [revEnd_set_ptr] at hih
          obtain ⟨fuel, sf1, v, tr, hb, hrec, hv⟩ := hih
          refine ⟨fuel + 1, sf1, v, sf.iter_ptr :: tr, ?_, ?_, hv⟩
          · simp only [scp_file_t.iter_ptr] at hb
            omega
          · rw [nextFluxAux]
            simp only [if_neg hres]
            rw [if_neg (by simpa using ht), hrec]
        · refine ⟨1, ?_⟩
          rw [nextFluxAux]
          simp only [if_neg hres]
          rw [if_pos (by simpa using ht)]
          refine ⟨_, _, _, by omega, rfl, ?_⟩
          have hsm := hsmall sf.iter_ptr
          show 0 < (val + (scpDat sf).getD sf.iter_ptr 0) % U32
          unfold U32
          omega

theorem nextFluxAux_reach_fixed (rev j : Nat) (sf : scp_file_t) (val : Nat)
    (hval : val % 65536 = 0)
    (hok : cursorOK sf rev)
    (hj1 : revStart sf rev ≤ j) (hj2 : j < revEnd sf rev)
    (hjnz : (scpDat sf).getD j 0 ≠ 0)
    (hsmall : ∀ i, (scpDat sf).getD i 0 < 65536) :
    ∃ sf1 v tr,
      nextFluxAux rev (revEnd sf rev + j + 1) sf val = some (sf1, v, tr) ∧
      0 < v := by
  obtain ⟨fuel, sf1, v, tr, hb, h1, h2⟩ := nextFluxAux_reach_any rev j
    (revEnd sf rev - sf.iter_ptr) sf val hval hok hj1 hj2 hjnz hsmall
    (le_refl _)
  exact ⟨sf1, v, tr,
    nextFluxAux_mono rev fuel (revEnd sf rev + j + 1) sf val _ h1 (by omega),
    h2⟩

theorem pllAccum_mono_nff :
    ∀ af nff nff2 (p : PLL) (sf : scp_file_t) r,
      pllAccum nff af p sf = some r → nff ≤ nff2 →
      pllAccum nff2 af p sf = some r := by
  intro af
  induction af with
  | zero =>
    intro _ _ _ _ _ h _
    exact absurd h (by simp [pllAccum])
  | succ n ih =>
    intro nff nff2 p sf r h hle
    simp only [pllAccum] at h ⊢
    split at h
    · cases hnf : scp_next_flux sf p.rev nff with
      | none => rw [hnf] at h; exact absurd h (by simp)
      | some r2 =>
        obtain ⟨sf1, v, tr⟩ := r2
        rw [hnf] at h
        dsimp only at h
        rw [if_pos (by assumption)]
        have hnf2 : scp_next_flux sf p.rev nff2 = some (sf1, v, tr) :=
          nextFluxAux_mono p.rev nff nff2 sf 0 (sf1, v, tr) hnf hle
        rw [hnf2]
        exact ih nff nff2 _ _ r h hle
    · rw [if_neg (by assumption)]
      exact h

theorem pllAccum_total (rev j : Nat) :
    ∀ (m : Nat) (p : PLL) (sf : scp_file_t),
      p.rev = rev →
      cursorOK sf rev →
      revStart sf rev ≤ j → j < revEnd sf rev →
      (scpDat sf).getD j 0 ≠ 0 →
      (∀ i, (scpDat sf).getD i 0 < 65536) →
      Int.tdiv p.clock 2 - p.flux ≤ 25 * (m : Int) →
      ∃ p1 sf1,
        pllAccum (revEnd sf rev + j + 1) (m + 1) p sf = some (p1, sf1) := by
  intro m
  induction m with
  | zero =>
    intro p sf hrev hok hj1 hj2 hjnz hsmall hm
    refine ⟨p, sf, ?_⟩
    simp only [pllAccum]
    rw [if_neg (by omega)]
  | succ n ih =>
    intro p sf hrev hok hj1 hj2 hjnz hsmall hm
    by_cases hf : p.flux < Int.tdiv p.clock 2
    · have hne : revStart sf rev < revEnd sf rev := by omega
      obtain ⟨sf1, v, tr, hnf, hv⟩ := nextFluxAux_reach_fixed rev j sf 0
        (by norm_num) hok hj1 hj2 hjnz hsmall
      have hinv := nextFluxAux_in_slice rev (revEnd sf rev + j + 1) sf 0
        sf1 v tr hne hok hnf
      obtain ⟨-, hdat, hidx, hp1, hp2, hlim⟩ := hinv
      have hes := revStart_congr sf1 sf rev hidx
      have hee := revEnd_congr sf1 sf rev hidx
      have hed := scpDat_congr sf1 sf hdat
      have hih := ih ({ p with flux := p.flux + 25 * (v : Int) }) sf1
        hrev
        (Or.inr ⟨by rw [hes]; omega, by rw [hee]; exact hlim⟩)
        (by rw [hes]; exact hj1)
        (by rw [hee]; exact hj2)
        (by rw [hed]; exact hjnz)
        (by rw [hed]; exact hsmall)
        (by
          have hv1 : (1 : Int) ≤ (v : Int) := by exact_mod_cast hv
          have hcast : ((n + 1 : Nat) : Int) = (n : Int) + 1 := by
            push_cast
            ring
          rw [hcast] at hm
          have : Int.tdiv p.clock 2 - (p.flux + 25 * (v : Int)) ≤
              25 * (n : Int) := by omega
          exact this)
      rw [hee] at hih
      obtain ⟨p2, sf2, hacc⟩ := hih
      refine ⟨p2, sf2, ?_⟩
      simp only [pllAccum]
      rw [if_pos hf]
      have hnf2 : scp_next_flux sf p.rev (revEnd sf rev + j + 1) =
          some (sf1, v, tr) := by
        rw [hrev]
        exact hnf
      rw [hnf2]
      exact hacc
    · refine ⟨p, sf, ?_⟩
      simp only [pllAccum]
      rw [if_neg hf]

/-- C9 (confirmed): when the target revolution's slice is non-empty and
holds a non-zero sample (at position `j`), `scp_next_flux` terminates
within fuel `revEnd + j + 1` and returns a strictly positive tick
count; consequently each accumulation-loop iteration of `pll_next_bit`
raises `flux` by at least 25 ns, and the whole `pll_next_bit` call
terminates (with explicit fuel) from any PLL state over this session. -/
theorem c9_termination (sf : scp_file_t) (rev j : Nat)
    (hok : cursorOK sf rev)
    (hj1 : revStart sf rev ≤ j) (hj2 : j < revEnd sf rev)
    (hjnz : (scpDat sf).getD j 0 ≠ 0)
    (hsmall : ∀ i, (scpDat sf).getD i 0 < 65536) :
    (scp_next_flux sf rev (revEnd sf rev + j + 1)).isSome = true ∧
    (∀ sf1 v tr,
      scp_next_flux sf rev (revEnd sf rev + j + 1) = some (sf1, v, tr) →
      0 < v) ∧
    (∀ p : PLL, p.rev = rev →
      (pll_next_bit (revEnd sf rev + j + 1)
        ((Int.tdiv p.clock 2 - p.flux).toNat + 1) p sf).isSome = true) := by
  obtain ⟨sf1, v, tr, hnf, hv⟩ := nextFluxAux_reach_fixed rev j sf 0
    (by norm_num) hok hj1 hj2 hjnz hsmall
  refine ⟨?_, ?_, ?_⟩
  · unfold scp_next_flux
    rw [hnf]
    rfl
  · intro sf1x vx trx h
    unfold scp_next_flux at h
    rw [hnf] at h
    simp only [Option.some.injEq, Prod.mk.injEq] at h
    obtain ⟨-, rfl, -⟩ := h
    exact hv
  · intro p hrev
    obtain ⟨p1, sfx, hacc⟩ := pllAccum_total rev j
      ((Int.tdiv p.clock 2 - p.flux).toNat) p sf hrev hok hj1 hj2 hjnz
      hsmall (by omega)
    unfold pll_next_bit
    rw [hacc]
    dsimp only
    split <;> rfl

/-- Witness for C9 on the single-sample session `sfOne` (`j = 0`,
sample 40): `scp_next_flux` terminates with the positive value 40, and
the first `pll_next_bit` call terminates with the stated fuels. -/
theorem c9_witness :
    (scp_next_flux sfOne 0 2).isSome = true ∧ 0 < 40 ∧
    (pll_next_bit 2 1001 (pll_init 0) sfOne).isSome = true := by
  have h := c9_termination sfOne 0 0 (Or.inl (by decide))
    (by decide) (by decide) (by decide)
    (by
      intro i
      cases i with
      | zero => decide
      | succ n =>
        show ((scpDat sfOne).getD (n + 1) 0) < 65536
        have : (scpDat sfOne).getD (n + 1) 0 = 0 := by
          simp [scpDat, sfOne, List.getD_eq_getElem?_getD]
        omega)
  refine ⟨h.1, ?_, ?_⟩
  · exact h.2.1 ({ sfOne with iter_ptr := 1, iter_limit := 1 }) 40 [0]
      (by decide)
  · exact h.2.2 (pll_init 0) rfl

/-! ### C3: an empty selected revolution still enters the decode path -/

theorem nextFluxAux_empty (rev : Nat) :
    ∀ fuel (sf : scp_file_t) (val : Nat),
      scpDat sf = [] →
      revEnd sf rev = 0 →
      revStart sf rev = 0 →
      nextFluxAux rev fuel sf val = none := by
  intro fuel
  induction fuel with
  | zero => intros; rfl
  | succ n ih =>
    intro sf val hdat hend hstart
    rw [nextFluxAux]
    by_cases hres : sf.iter_limit ≤ sf.iter_ptr
    · simp only [if_pos hres, scpDat_set, hdat, List.getD_nil, ne_eq,
        not_true_eq_false, if_false]
      rw [ih _ _ (by rw [scpDat_set]; exact hdat)
        (by rw [revEnd_set]; exact hend)
        (by rw [revStart_set]; exact hstart)]
    · simp only [if_neg hres, hdat, List.getD_nil, ne_eq,
        not_true_eq_false, if_false]
      rw [ih _ _ (by rw [scpDat_set_ptr]; exact hdat)
        (by rw [revEnd_set_ptr]; exact hend)
        (by rw [revStart_set_ptr]; exact hstart)]

/-- C3 (code bug): on the concrete capture `fileTrkEmpty` the track
selection SUCCEEDS with an empty revolution (`nr_samples = 0`), yet the
orchestrator branch of `scp_write_mfm` takes the PLL decode path, not
the filler path the spec requires; on this session `scp_next_flux`
never returns (it restarts to an empty slice and reads outside it
forever), so `pll_next_bit` — and with it the decode loop — cannot
terminate for any fuel. -/
theorem c3_empty_rev_decode_branch :
    (scp_track_branch sfFreshEmpty 0).1 = TrackPath.decode ∧
    (scp_track_branch sfFreshEmpty 0).2.dat = some [] ∧
    revEnd (scp_reset (scp_track_branch sfFreshEmpty 0).2) 0 = 0 ∧
    (∀ fuel val,
      nextFluxAux 0 fuel (scp_reset (scp_track_branch sfFreshEmpty 0).2) val =
        none) ∧
    (∀ nff af,
      pll_next_bit nff af (pll_init 0)
        (scp_reset (scp_track_branch sfFreshEmpty 0).2) = none) := by
  refine ⟨by decide, by decide, by decide, ?_, ?_⟩
  · intro fuel val
    exact nextFluxAux_empty 0 fuel _ val (by decide) (by decide) (by decide)
  · intro nff af
    cases af with
    | zero => rfl
    | succ a =>
      unfold pll_next_bit
      simp only [pllAccum]
      rw [if_pos (by decide)]
      rw [show scp_next_flux (scp_reset (scp_track_branch sfFreshEmpty 0).2)
          (pll_init 0).rev nff = none from
        nextFluxAux_empty 0 nff _ 0 (by decide) (by decide) (by decide)]

/-! ### C2: half-bit total of a decoded track -/

theorem pll_next_bit_zero_step (nff a : Nat) (p : PLL) (sf : scp_file_t)
    (h1 : Int.tdiv p.clock 2 ≤ p.flux)
    (h2 : Int.tdiv p.clock 2 ≤ p.flux - p.clock) :
    pll_next_bit nff (a + 1) p sf =
      some ({ p with
                time := p.time + p.clock,
                flux := p.flux - p.clock,
                clocked_zeros := p.clocked_zeros + 1 }, sf, 0) := by
  unfold pll_next_bit
  simp only [pllAccum]
  rw [if_neg (by omega)]
  simp only [ge_iff_le]
  rw [if_pos (by exact h2)]

theorem padLoop_count_aux :
    ∀ (k : Nat) (w : mfm_writer_t) (n : Nat), 12800 * 8 - n ≤ k →
      (padLoop w n).1.count = w.count + (12800 * 8 - n) := by
  intro k
  induction k with
  | zero =>
    intro w n h
    rw [padLoop.eq_def]
    rw [dif_neg (by omega)]
    simp
    omega
  | succ m ih =>
    intro w n h
    rw [padLoop.eq_def]
    by_cases hn : n < 12800 * 8
    · rw [dif_pos hn]
      by_cases hn1 : n + 1 < 12800 * 8
      · rw [if_pos hn1, ih _ (n + 2) (by omega)]
        simp [mfm_write_halfbit]
        omega
      · rw [if_neg hn1, ih _ (n + 2) (by omega)]
        simp [mfm_write_halfbit]
        omega
    · rw [dif_neg hn]
      simp
      omega

theorem padLoop_count (w : mfm_writer_t) (n : Nat) :
    (padLoop w n).1.count = w.count + (12800 * 8 - n) :=
  padLoop_count_aux (12800 * 8) w n (by omega)

theorem padLoop_exhausted (w : mfm_writer_t) (n : Nat)
    (h : 12800 * 8 ≤ n) : padLoop w n = (w, n + 1) := by
  rw [padLoop.eq_def]
  rw [dif_neg (by omega)]

theorem decodeLoop_count (nff af : Nat) :
    ∀ fuel (p : PLL) (sf : scp_file_t) (w : mfm_writer_t) (n : Nat) r,
      decodeLoop nff af fuel p sf w n = some r →
      r.2.2.1.count = w.count + (r.2.2.2 - n) ∧ n < r.2.2.2 := by
  intro fuel
  induction fuel with
  | zero =>
    intro _ _ _ _ _ h
    exact absurd h (by simp [decodeLoop])
  | succ m ih =>
    intro p sf w n r h
    rw [decodeLoop] at h
    cases hnb : pll_next_bit nff af p sf with
    | none => rw [hnb] at h; exact absurd h (by simp)
    | some rb =>
      obtain ⟨p1, sf1, bit⟩ := rb
      rw [hnb] at h
      dsimp only at h
      split at h
      · obtain ⟨hc, hlt⟩ := ih p1 sf1 (mfm_write_halfbit w bit) (n + 1) r h
        simp only [mfm_write_halfbit] at hc
        constructor
        · omega
        · omega
      · simp only [Option.some.injEq] at h
        subst h
        simp [mfm_write_halfbit]

theorem decodeLoop_zero_run (nff : Nat) (a : Nat) :
    ∀ (jj : Nat) (p : PLL) (sf : scp_file_t) (w : mfm_writer_t)
      (n fuel : Nat),
      p.clock = 2000 →
      1000 + 2000 * (jj : Int) ≤ p.flux →
      sf.iter_ptr < sf.iter_limit →
      decodeLoop nff (a + 1) (jj + fuel) p sf w n =
        decodeLoop nff (a + 1) fuel
          ({ p with
              flux := p.flux - 2000 * (jj : Int),
              time := p.time + 2000 * (jj : Int),
              clocked_zeros := p.clocked_zeros + jj })
          sf
          ({ count := w.count + jj,
             last := if jj = 0 then w.last else 0 })
          (n + jj) := by
  intro jj
  induction jj with
  | zero =>
    intro p sf w n fuel hclk hflux hcur
    rw [Nat.zero_add]
    norm_num
  | succ m ih =>
    intro p sf w n fuel hclk hflux hcur
    have hm1 : ((m + 1 : Nat) : Int) = (m : Int) + 1 := by push_cast; ring
    rw [hm1] at hflux
    have hmnn : (0 : Int) ≤ (m : Int) := by positivity
    have ht2 : Int.tdiv (2000 : Int) 2 = 1000 := by decide
    have hstep := pll_next_bit_zero_step nff a p sf
      (by rw [hclk, ht2]; omega)
      (by rw [hclk, ht2]; omega)
    rw [show (m + 1) + fuel = (m + fuel) + 1 from by omega]
    rw [decodeLoop]
    rw [hstep]
    dsimp only
    rw [if_pos hcur]
    rw [ih ({ p with
        time := p.time + p.clock,
        flux := p.flux - p.clock,
        clocked_zeros := p.clocked_zeros + 1 }) sf
      (mfm_write_halfbit w 0) (n + 1) fuel (by exact hclk)
      (by
        show 1000 + 2000 * (m : Int) ≤ p.flux - p.clock
        rw [hclk]
        omega)
      hcur]
    have e1 : p.flux - p.clock - 2000 * (m : Int) =
        p.flux - 2000 * ((m + 1 : Nat) : Int) := by
      rw [hclk, hm1]
      ring
    have e2 : p.time + p.clock + 2000 * (m : Int) =
        p.time + 2000 * ((m + 1 : Nat) : Int) := by
      rw [hclk, hm1]
      ring
    have e3 : p.clocked_zeros + 1 + m = p.clocked_zeros + (m + 1) := by omega
    have e4 : (mfm_write_halfbit w 0).count + m = w.count + (m + 1) := by
      simp [mfm_write_halfbit]
      omega
    have e5 : (if m = 0 then (mfm_write_halfbit w 0).last else 0) =
        (if m + 1 = 0 then w.last else 0) := by
      simp [mfm_write_halfbit]
    have e6 : n + 1 + m = n + (m + 1) := by omega
    rw [e1, e2, e3, e4, e5, e6]

theorem scp_track_mfm_split (nff af fuel : Nat) (sf : scp_file_t)
    (rev : Nat) (p1 : PLL) (sf1 : scp_file_t) (bd : Nat)
    (p2 : PLL) (sf2 : scp_file_t) (w : mfm_writer_t) (n : Nat)
    (h1 : pll_next_bit nff af (pll_init rev) (scp_reset sf) =
      some (p1, sf1, bd))
    (h2 : decodeLoop nff af fuel p1 sf1 mfm_write_reset 0 =
      some (p2, sf2, w, n)) :
    scp_track_mfm nff af fuel sf rev = some (padLoop w n) := by
  simp only [scp_track_mfm, h1, h2]

/-- C2 (corrected): on a successfully selected track, when the natural
decode loop terminates having emitted `n` half-bits, the total number
of half-bit cells delivered to the sink is `max n (12800*8)`: the
padding loop only tops the count up to `12800*8`, so the total equals
`12800*8` exactly when the natural decode produced at most that many
half-bits, and exceeds it otherwise. -/
theorem c2_track_total (nff af fuel : Nat) (sf : scp_file_t) (rev : Nat)
    (p1 : PLL) (sf1 : scp_file_t) (bd : Nat)
    (p2 : PLL) (sf2 : scp_file_t) (w : mfm_writer_t) (n : Nat)
    (h1 : pll_next_bit nff af (pll_init rev) (scp_reset sf) =
      some (p1, sf1, bd))
    (h2 : decodeLoop nff af fuel p1 sf1 mfm_write_reset 0 =
      some (p2, sf2, w, n)) :
    scp_track_mfm nff af fuel sf rev = some (padLoop w n) ∧
    (padLoop w n).1.count = max n (12800 * 8) := by
  constructor
  · exact scp_track_mfm_split nff af fuel sf rev p1 sf1 bd p2 sf2 w n h1 h2
  · have hc := decodeLoop_count nff af fuel p1 sf1 mfm_write_reset 0
      (p2, sf2, w, n) h2
    simp only [mfm_write_reset] at hc
    rw [padLoop_count]
    omega

/-- Witness for C2 on the single-sample track `sfOne`: the natural loop
stops after 1 half-bit and padding brings the track total to exactly
`12800*8`. -/
theorem c2_witness :
    scp_track_mfm 10 10 10 sfOne 0 =
      some (padLoop { count := 1, last := 1 } 1) ∧
    (padLoop { count := 1, last := 1 } 1).1.count = max 1 (12800 * 8) :=
  c2_track_total 10 10 10 sfOne 0
    { rev := 0, clock := 1950, flux := -400, time := 1400,
      clocked_zeros := 0 }
    ({ sfOne with iter_ptr := 1, iter_limit := 1 }) 1
    { rev := 0, clock := 1933, flux := -140, time := 3140,
      clocked_zeros := 0 }
    ({ sfOne with iter_ptr := 1, iter_limit := 1 })
    { count := 1, last := 1 } 1
    (by decide) (by decide)

set_option maxRecDepth 40000 in
set_option maxHeartbeats 4000000 in
/-- Counterexample for C2 as stated: on the loaded track `sfLong`
(whose first flux interval spans 130 overflow markers) the natural
decode loop emits 106496 half-bits before the cursor is exhausted, the
padding loop adds none, and the track total is 106496, not
`12800*8 = 102400`. -/
theorem c2_counterexample :
    scp_track_mfm 1000 1000 106496 sfLong 0 =
      some ({ count := 106496, last := 0 }, 106497) ∧
    (106496 : Nat) ≠ 12800 * 8 := by
  have h1 : pll_next_bit 1000 1000 (pll_init 0) (scp_reset sfLong) =
      some ({ rev := 0, clock := 2000, flux := 212990025, time := 2000,
              clocked_zeros := 1 },
        { sfLong with iter_ptr := 131, iter_limit := 132 }, 0) := by
    decide
  have hrun := decodeLoop_zero_run 1000 999 106494
    { rev := 0, clock := 2000, flux := 212990025, time := 2000,
      clocked_zeros := 1 }
    ({ sfLong with iter_ptr := 131, iter_limit := 132 })
    mfm_write_reset 0 2
    rfl
    (by norm_num)
    (by decide)
  norm_num [mfm_write_reset] at hrun
  have h3 : decodeLoop 1000 1000 2
      { rev := 0, clock := 2000, flux := 2025, time := 212990000,
        clocked_zeros := 106495 }
      ({ sfLong with iter_ptr := 131, iter_limit := 132 })
      { count := 106494, last := 0 } 106494 =
      some ({ rev := 0, clock := 2000, flux := 1636385, time := 212994015,
              clocked_zeros := 1 },
        { sfLong with iter_ptr := 132, iter_limit := 132 },
        { count := 106496, last := 0 }, 106496) := by
    decide
  have h2c := hrun.trans h3
  have hm := scp_track_mfm_split 1000 1000 106496 sfLong 0
    { rev := 0, clock := 2000, flux := 212990025, time := 2000,
      clocked_zeros := 1 }
    ({ sfLong with iter_ptr := 131, iter_limit := 132 }) 0
    { rev := 0, clock := 2000, flux := 1636385, time := 212994015,
      clocked_zeros := 1 }
    ({ sfLong with iter_ptr := 132, iter_limit := 132 })
    { count := 106496, last := 0 } 106496
    h1 h2c
  rw [padLoop_exhausted _ _ (by norm_num)] at hm
  norm_num at hm
  exact ⟨hm, by norm_num⟩
